import Mathlib

/-!
# Verification of the Reinicke real-estate scraper core

A shallow embedding of `reinicke_v2_airtable_replace.py`: the extraction,
enrichment and reconciliation logic is translated into executable Lean
definitions, and the behavioural claims of the design document are proved
against them.

Modelling boundary: HTML parsing (BeautifulSoup) is an external capability;
definitions that the source applies to `soup.get_text()` output are embedded
as functions of that plain text.  Network, store and model calls are
parameters (capabilities) of the embedded functions.
-/

namespace Reinicke

/-! ## Character and string utilities (Python semantics) -/

/-- ASCII decimal digit, the `\d` class for the inputs at hand. -/
def isDigitChar (c : Char) : Bool := '0' ≤ c && c ≤ '9'

/-- Character class `[\d.,]` of `RE_PRICE` and the rent pattern. -/
def isPriceChar (c : Char) : Bool := isDigitChar c || c = '.' || c = ','

/-- Python `\s` / `str.strip` whitespace (the ASCII part). -/
def isWsChar (c : Char) : Bool :=
  c = ' ' || c = '\t' || c = '\n' || c = '\r' || c = '\x0b' || c = '\x0c'

/-- Python `str.lower`, restricted to ASCII letters plus the German
capitals that occur in this repository's data (`Ä Ö Ü`). -/
def lowerChar (c : Char) : Char :=
  if 'A' ≤ c && c ≤ 'Z' then Char.ofNat (c.toNat + 32)
  else if c = 'Ä' then 'ä'
  else if c = 'Ö' then 'ö'
  else if c = 'Ü' then 'ü'
  else c

def pyLower (s : String) : String := String.mk (s.data.map lowerChar)

/-- Python `str.strip()` on a character list. -/
def stripWs (cs : List Char) : List Char :=
  ((cs.dropWhile isWsChar).reverse.dropWhile isWsChar).reverse

def pyStrip (s : String) : String := String.mk (stripWs s.data)

/-- Boolean list-prefix test. -/
def isPrefixB : List Char → List Char → Bool
  | [], _ => true
  | _ :: _, [] => false
  | p :: ps, t :: ts => p = t && isPrefixB ps ts

/-- Boolean substring test on char lists: Python's `needle in haystack`. -/
def substrB (p : List Char) : List Char → Bool
  | [] => isPrefixB p []
  | t :: ts => isPrefixB p (t :: ts) || substrB p ts

/-! ## Subcategory keyword heuristic (`heuristic_subcategory`, lines 562-590) -/

def KEYS_WOHNUNG : List String :=
  ["wohnung", "etagenwohnung", "eigentumswohnung", "apartment", "etw",
   "penthouse", "maisonette"]

def KEYS_HAUS : List String :=
  ["haus", "einfamilienhaus", "zweifamilienhaus", "reihenhaus",
   "doppelhaushälfte", "villa", "bungalow", "efh", "dhh", "mfh"]

def KEYS_GEWERBE : List String :=
  ["gewerbe", "büro", "laden", "praxis", "lager", "halle", "gastronomie",
   "gewerbefläche", "bürofläche"]

def KEYS_GRUNDSTUECK : List String :=
  ["grundstück", "baugrundstück", "bauland", "bauplatz"]

/-- `sum(1 for k in keys if k in text)`: number of keywords of `keys`
occurring as a substring of `text`. -/
def keywordScore (keys : List String) (text : String) : Nat :=
  (keys.filter (fun k => substrB k.data text.data)).length

/-- Python `max(scores, key=scores.get)` over the dict
`{Grundstück: g, Gewerbe: gw, Wohnung: w, Haus: h}` (insertion order):
the first label attaining the maximal score, paired with that score. -/
def pickBest (g gw w h : Nat) : String × Nat :=
  let b1 : String × Nat := ("Grundstück", g)
  let b2 := if b1.2 < gw then ("Gewerbe", gw) else b1
  let b3 := if b2.2 < w then ("Wohnung", w) else b2
  if b3.2 < h then ("Haus", h) else b3

/-- The branch structure of `heuristic_subcategory` over the four computed
scores (source lines 578-590): `Grundstück` at score ≥ 1, `Gewerbe` at
score ≥ 2, else the first highest-scoring label if its score is ≥ 1,
else the `"Haus"` default. -/
def heuristicPick (g gw w h : Nat) : String :=
  if 1 ≤ g then "Grundstück"
  else if 2 ≤ gw then "Gewerbe"
  else
    let best := pickBest g gw w h
    if 1 ≤ best.2 then best.1 else "Haus"

/-- `heuristic_subcategory(titel, beschreibung)`: keyword-scoring fallback
classifier (source lines 567-590). -/
def heuristic_subcategory (titel beschreibung : String) : String :=
  let text := pyLower (titel ++ " " ++ beschreibung)
  heuristicPick (keywordScore KEYS_GRUNDSTUECK text)
    (keywordScore KEYS_GEWERBE text)
    (keywordScore KEYS_WOHNUNG text)
    (keywordScore KEYS_HAUS text)

/-! ## Number parsing (Python `float` on cleaned price strings) -/

/-- Numeric value of a list of ASCII digits (most significant first). -/
def natOfDigits : List Char → Nat
  | [] => 0
  | c :: cs => (c.toNat - '0'.toNat) * 10 ^ cs.length + natOfDigits cs

/-- Python `float(s)` restricted to the shapes this program feeds it:
strings of digits with at most one dot (anything else raised `ValueError`
and is modelled as `none`).  Surrounding whitespace is stripped, as
`float` does. -/
def pyFloat (cs : List Char) : Option ℚ :=
  let cs := stripWs cs
  if cs.all (fun c => isDigitChar c || c = '.')
      && cs.count '.' ≤ 1 && cs.any isDigitChar then
    let intPart := cs.takeWhile (· ≠ '.')
    let frac := (cs.dropWhile (· ≠ '.')).drop 1
    some (mkRat (natOfDigits (intPart ++ frac)) (10 ^ frac.length))
  else none

/-- `s.replace(".", "").replace(",", ".")`: drop thousands dots, turn the
decimal comma into a dot. -/
def cleanNumChars (cs : List Char) : List Char :=
  (cs.filter (fun c => c ≠ '.')).map (fun c => if c = ',' then '.' else c)

/-- Parse of a currency-tagged token:
`float(p.replace(".", "").replace(",", "."))` (source lines 798-799). -/
def parseEuroNumber (s : String) : Option ℚ := pyFloat (cleanNumChars s.data)

/-- Parse of a stored `preis` field:
`float(t.replace("€", "").replace(".", "").replace(",", ".").strip())`
(source lines 1023-1024 and 1052-1053; `pyFloat` strips the whitespace). -/
def parsePreisField (s : String) : Option ℚ :=
  pyFloat (cleanNumChars (s.data.filter (fun c => c ≠ '€')))

/-! ## Regex scanners

`RE_PRICE = ([\d.,]+)\s*€` and the rent pattern
`(?:Warmmiete|Kaltmiete|Miete)\s*[:.]?\s*([\d.,]+)\s*€` (IGNORECASE) are
embedded as direct `findall` scanners.  The character classes `[\d.,]`,
`\s` and `€` are pairwise disjoint, so the greedy runs never need to
backtrack; the only backtracking point of the rent pattern is the
optional `[:.]`, which is tried consumed-first like the regex engine
does. -/

/-- At the current position, match `([\d.,]+)\s*€`; on success return the
captured token and the rest of the input after the `€`. -/
def matchNumEuro (cs : List Char) : Option (List Char × List Char) :=
  let run := cs.takeWhile isPriceChar
  if run.isEmpty then none
  else
    let rest := (cs.dropWhile isPriceChar).dropWhile isWsChar
    match rest with
    | '€' :: tail => some (run, tail)
    | _ => none

/-- `RE_PRICE.findall` worker: leftmost matches, resuming after each match,
advancing one character on failure.  `fuel` only bounds the recursion and
is instantiated with the input length. -/
def scanPricesAux : Nat → List Char → List (List Char)
  | 0, _ => []
  | _, [] => []
  | fuel + 1, c :: cs =>
    match matchNumEuro (c :: cs) with
    | some (run, tail) => run :: scanPricesAux fuel tail
    | none => scanPricesAux fuel cs

/-- `RE_PRICE.findall(text)` (source line 793 applies it to the lowercased
document text). -/
def priceTokens (text : String) : List String :=
  (scanPricesAux text.data.length text.data).map String.mk

/-- Case-insensitive literal match: on success, the input after the label. -/
def matchLabelCI : List Char → List Char → Option (List Char)
  | [], cs => some cs
  | _ :: _, [] => none
  | l :: ls, c :: cs => if lowerChar c = l then matchLabelCI ls cs else none

/-- After a rent label: `\s*[:.]?\s*([\d.,]+)\s*€`, with the `[:.]?`
tried greedily (consumed first, then empty). -/
def matchRentTail (cs : List Char) : Option (List Char × List Char) :=
  let cs1 := cs.dropWhile isWsChar
  match cs1 with
  | c :: rest =>
    if c = ':' || c = '.' then
      match matchNumEuro (rest.dropWhile isWsChar) with
      | some r => some r
      | none => matchNumEuro cs1
    else matchNumEuro cs1
  | [] => none

/-- At the current position, match the whole rent pattern
`(?:Warmmiete|Kaltmiete|Miete)\s*[:.]?\s*([\d.,]+)\s*€` (IGNORECASE). -/
def matchRent (cs : List Char) : Option (List Char × List Char) :=
  match matchLabelCI "warmmiete".data cs with
  | some rest => matchRentTail rest
  | none =>
    match matchLabelCI "kaltmiete".data cs with
    | some rest => matchRentTail rest
    | none =>
      match matchLabelCI "miete".data cs with
      | some rest => matchRentTail rest
      | none => none

/-- `miete_pattern.findall` worker. -/
def scanRentAux : Nat → List Char → List (List Char)
  | 0, _ => []
  | _, [] => []
  | fuel + 1, c :: cs =>
    match matchRent (c :: cs) with
    | some (run, tail) => run :: scanRentAux fuel tail
    | none => scanRentAux fuel cs

/-- `miete_pattern.findall(text)` over the full-case document text
(source lines 809-810). -/
def rentCaptures (text : String) : List String :=
  (scanRentAux text.data.length text.data).map String.mk

/-! ## Price and category extraction
(`get_propstack_property_data_from_iframe`, lines 789-822, modelled on the
document text `soup.get_text()`) -/

/-- The `prices` list of source lines 795-803: each currency token parsed,
kept when its value exceeds 100, paired with the stored string `p + " €"`. -/
def validPrices (text : String) : List (ℚ × String) :=
  (priceTokens (pyLower text)).filterMap (fun p =>
    match parseEuroNumber p with
    | some v => if 100 < v then some (v, p ++ " €") else none
    | none => none)

/-- `prices.sort(reverse=True); prices[0]`: the greatest pair under the
Python tuple order (value first, string second). -/
def tupleMax : List (ℚ × String) → Option (ℚ × String)
  | [] => none
  | x :: xs =>
    some (xs.foldl (fun b y => if b.1 < y.1 || (b.1 = y.1 && b.2 < y.2) then y else b) x)

/-- The rent-override loop of source lines 812-822: the first rent capture
whose parsed value exceeds 100. -/
def firstValidRent (text : String) : Option String :=
  (rentCaptures text).findSome? (fun m =>
    match parseEuroNumber m with
    | some v => if 100 < v then some m else none
    | none => none)

structure PriceCat where
  preis : String
  kategorie : String
  deriving DecidableEq, Repr

/-- The `preis`/`kategorie` portion of
`get_propstack_property_data_from_iframe`: defaults `preis = ""`,
`kategorie = "Kaufen"`; the maximal currency figure above 100 becomes the
price; a valid rent-labeled figure then overrides the price and forces
`kategorie = "Mieten"`. -/
def extractPriceCat (text : String) : PriceCat :=
  let base :=
    match tupleMax (validPrices text) with
    | some (_, s) => s
    | none => ""
  match firstValidRent text with
  | some m => { preis := m ++ " €", kategorie := "Mieten" }
  | none => { preis := base, kategorie := "Kaufen" }

/-- Source lines 1008-1009: the overview-page category hint overwrites the
extracted category unless the extraction already decided `"Mieten"`. -/
def applyOverviewKategorie (hint : Option String) (kategorie : String) : String :=
  match hint with
  | some h => if kategorie ≠ "Mieten" then h else kategorie
  | none => kategorie

/-- Source lines 1020-1030, inner computation: category of a `Gewerbe`
listing derived from its price text (`Mieten` below 30000, otherwise
`Kaufen`, and `Kaufen` when the parse fails). -/
def gewerbeKategorieFromPreis (preisText : String) : String :=
  match parsePreisField preisText with
  | some v => if v < 30000 then "Mieten" else "Kaufen"
  | none => "Kaufen"

/-- Source lines 1020-1030: when the subcategory came out `Gewerbe` and the
overview page supplied no hint, recompute the category from the price. -/
def applyGewerbeKategorie (unterkategorie : String) (hint : Option String)
    (preisText : String) (kategorie : String) : String :=
  if unterkategorie = "Gewerbe" && hint = none then
    gewerbeKategorieFromPreis preisText
  else kategorie

/-! ## Record field maps

Airtable records are Python dicts `field name → value`; the values that
occur are strings, numbers (`Preis`) and `None`.  Dicts are embedded as
association lists with unique keys, first-match lookup and
position-preserving overwrite (Python dict semantics). -/

inductive Value where
  | vStr (s : String)
  | vNum (q : ℚ)
  | vNull
  deriving DecidableEq, Repr

abbrev FieldMap := List (String × Value)

/-- `dict.get k` / `dict[k]`: first binding wins (dicts never hold
duplicate keys anyway). -/
def lookupA {α : Type} : List (String × α) → String → Option α
  | [], _ => none
  | (k', v) :: r, k => if k' = k then some v else lookupA r k

/-- `(record.get(k) or "")` for string-valued fields: missing, `None` and
non-string values collapse to `""`. -/
def getStr (m : FieldMap) (k : String) : String :=
  match lookupA m k with
  | some (Value.vStr s) => s
  | _ => ""

/-- `d[k] = v` on a dict: replace in place when the key exists, else
append. -/
def upsert {α : Type} : List (String × α) → String → α → List (String × α)
  | [], k, v => [(k, v)]
  | (k', v') :: r, k, v =>
    if k' = k then (k', v) :: r else (k', v') :: upsert r k v

/-! ## Validity check (`is_valid_record`, lines 274-290, and
`cleanup_empty_airtable_records`, lines 311-335) -/

/-- One `filled_fields` contribution: a non-blank string or a number
strictly above zero (`None` never counts). -/
def isFilled (v : Value) : Bool :=
  match v with
  | Value.vStr s => pyStrip s ≠ ""
  | Value.vNum q => 0 < q
  | Value.vNull => false

/-- `filled_fields` of source lines 282-288. -/
def countFilled (m : FieldMap) : Nat := (m.filter (fun p => isFilled p.2)).length

/-- `is_valid_record(record)` (source lines 274-290). -/
def is_valid_record (m : FieldMap) : Bool :=
  let titel := pyStrip (getStr m "Titel")
  let webseite := pyStrip (getStr m "Webseite")
  if titel = "" || webseite = "" then false
  else 3 ≤ countFilled m

/-- `cleanup_empty_airtable_records` (source lines 311-335): the store ids
scheduled for deletion are exactly those of the records failing
`is_valid_record`. -/
def cleanupDeleteIds (store : List (String × FieldMap)) : List String :=
  (store.filter (fun p => !is_valid_record p.2)).map (fun p => p.1)

/-! ## Join key (`unique_key`, lines 1087-1094) -/

/-- Canonical serialization standing in for
`json.dumps(fields, sort_keys=True)`: bindings sorted by key. -/
def sortedFields (m : FieldMap) : FieldMap :=
  m.mergeSort (fun a b => a.1 ≤ b.1)

def serializeValue (v : Value) : String :=
  match v with
  | Value.vStr s => "\"" ++ s ++ "\""
  | Value.vNum q => toString q.num ++ "/" ++ toString q.den
  | Value.vNull => "null"

def serializeFields (m : FieldMap) : String :=
  String.intercalate "," ((sortedFields m).map (fun p => p.1 ++ ":" ++ serializeValue p.2))

/-- Deterministic stand-in for Python's (per-process deterministic)
`hash` of the canonical serialization. -/
def contentHash (m : FieldMap) : Nat :=
  (serializeFields m).data.foldl (fun h c => h * 31 + c.toNat) 7

/-- `unique_key(fields)` (source lines 1087-1094): nonempty `Objektnummer`
first, then nonempty `Webseite`, then a content hash. -/
def unique_key (m : FieldMap) : String :=
  let obj := pyStrip (getStr m "Objektnummer")
  if obj ≠ "" then "obj:" ++ obj
  else
    let url := pyStrip (getStr m "Webseite")
    if url ≠ "" then "url:" ++ url
    else "hash:" ++ toString (contentHash m)

/-! ## Reconciliation (`run`, lines 1160-1225) -/

/-- `sanitize_record_for_airtable(record, allowed_fields)`
(source lines 261-268). -/
def sanitize_record_for_airtable (m : FieldMap) (allowed : List String) : FieldMap :=
  if allowed.isEmpty then m
  else m.filter (fun p => p.1 ∈ allowed || p.1 = "Kurzbeschreibung")

/-- The `existing` dict of source lines 1183-1186: join key of the remote
fields → (record id, remote fields); a later duplicate key overwrites. -/
def buildExisting (pairs : List (String × FieldMap)) : List (String × (String × FieldMap)) :=
  pairs.foldl (fun acc p => upsert acc (unique_key p.2) (p.1, p.2)) []

/-- The `desired` dict of source lines 1188-1195: keyed sanitized records,
a duplicate key keeping the row with the longer raw `Beschreibung`. -/
def buildDesired (allowed : List String) (rows : List FieldMap) :
    List (String × FieldMap) :=
  rows.foldl (fun acc r =>
    let k := unique_key r
    match lookupA acc k with
    | some cur =>
      if (getStr cur "Beschreibung").length < (getStr r "Beschreibung").length then
        upsert acc k (sanitize_record_for_airtable r allowed)
      else acc
    | none => upsert acc k (sanitize_record_for_airtable r allowed)) []

/-- `diff = {fld: val for fld, val in fields.items() if old.get(fld) != val}`
(source line 1201). -/
def diffFields (fields old : FieldMap) : FieldMap :=
  fields.filter (fun p => lookupA old p.1 ≠ some p.2)

/-- `to_create` of source lines 1197-1206: desired records whose key has no
existing record. -/
def toCreate (em : List (String × (String × FieldMap)))
    (dm : List (String × FieldMap)) : List FieldMap :=
  (dm.filter (fun p => (lookupA em p.1).isNone)).map (fun p => p.2)

/-- `to_update` of source lines 1197-1206: for each desired key with an
existing record, the nonempty field diff together with the store id. -/
def toUpdate (em : List (String × (String × FieldMap)))
    (dm : List (String × FieldMap)) : List (String × FieldMap) :=
  dm.filterMap (fun p =>
    match lookupA em p.1 with
    | some (recId, old) =>
      let d := diffFields p.2 old
      if d.isEmpty then none else some (recId, d)
    | none => none)

/-- The `keep` set of source lines 1197-1206 (as a list). -/
def keepKeys (em : List (String × (String × FieldMap)))
    (dm : List (String × FieldMap)) : List String :=
  (dm.filter (fun p => (lookupA em p.1).isSome)).map (fun p => p.1)

/-- `to_delete_ids` of source line 1208. -/
def toDeleteIds (em : List (String × (String × FieldMap)))
    (dm : List (String × FieldMap)) : List String :=
  (em.filter (fun p => p.1 ∉ keepKeys em dm)).map (fun p => p.2.1)

/-- A store mutation, in the order the `run` function issues it. -/
inductive Op where
  | create (fields : FieldMap)
  | update (recId : String) (fields : FieldMap)
  | del (recId : String)
  deriving DecidableEq, Repr

/-- The mutation sequence issued by `run` (source lines 1163-1220):
full-replace deletes every existing record first and then creates every
desired row; incremental issues creates, then updates, then deletes of
the computed plan. -/
def syncOps (fullReplace : Bool) (allowed : List String)
    (existingPairs : List (String × FieldMap)) (rows : List FieldMap) : List Op :=
  if fullReplace then
    existingPairs.map (fun p => Op.del p.1) ++ rows.map Op.create
  else
    let em := buildExisting existingPairs
    let dm := buildDesired allowed rows
    (toCreate em dm).map Op.create
      ++ (toUpdate em dm).map (fun p => Op.update p.1 p.2)
      ++ (toDeleteIds em dm).map Op.del

/-- The remote store's `batch_update` applies a field diff as a patch:
each diffed field is written, every other field is untouched.
Modelled from the spec: the store capability
`batch_update(id_field_diffs)` is external to the repository. -/
def applyDiff (old d : FieldMap) : FieldMap :=
  d.foldl (fun acc p => upsert acc p.1 p.2) old

/-! ## Enrichment layer

`gpt_classify_unterkategorie` (lines 592-659) and
`generate_kurzbeschreibung` (lines 450-556).  The process-global caches
and the OpenAI call become explicit parameters: a cache is a total map
`object key → cached value` with `""` for absence (the `dict.get(k, "")`
convention), and the model call is a capability returning `none` when the
request raises. -/

def KURZBESCHREIBUNG_FIELDS : List String :=
  ["Objekttyp", "Baujahr", "Wohnfläche", "Grundstück", "Zimmer",
   "Preis", "Standort", "Energieeffizienz", "Besonderheiten"]

structure ScrapedData where
  kategorie : String
  preis : String
  standort : String
  zimmer : String
  wohnflaeche : String
  grundstueck : String
  baujahr : String
  deriving Repr

/-- Line-parsing loop of `normalize_kurzbeschreibung` (source lines
400-410): split the stripped model output on newlines, keep `key: value`
lines whose value is neither empty nor a placeholder token. -/
def parseGptOutput (out : String) : List (String × String) :=
  ((pyStrip out).splitOn "\n").foldl (fun acc line =>
    let l := pyStrip line
    if l = "" then acc
    else if l.data.contains ':' then
      let key := pyStrip (String.mk (l.data.takeWhile (fun c => c ≠ ':')))
      let value := pyStrip (String.mk ((l.data.dropWhile (fun c => c ≠ ':')).drop 1))
      if value ≠ "" && value ∉ ["-", "—", "k. A.", "unbekannt", "nicht angegeben"] then
        upsert acc key value
      else acc
    else acc) []

/-- The `scrape_mapping` of source lines 412-419, paired with the scraped
values, in dict order. -/
def gapFields (sd : ScrapedData) : List (String × String) :=
  [("Zimmer", sd.zimmer), ("Wohnfläche", sd.wohnflaeche),
   ("Grundstück", sd.grundstueck), ("Baujahr", sd.baujahr),
   ("Preis", sd.preis), ("Standort", sd.standort)]

/-- Python `int()` on a float: truncation toward zero. -/
def pyInt (q : ℚ) : ℤ := q.num / q.den

/-- `normalize_kurzbeschreibung(gpt_output, scraped_data)` (source lines
398-448): parse the model output, gap-fill missing fields from scraped
data (with unit formatting), emit the whitelisted fields in fixed order. -/
def normalize_kurzbeschreibung (gptOutput : String) (sd : ScrapedData) : String :=
  let parsed := parseGptOutput gptOutput
  let filled := (gapFields sd).foldl
    (fun (acc : List (String × String)) (p : String × String) =>
    let field := p.1
    let needFill : Bool := match lookupA acc field with
      | some v => decide (v = "")
      | none => true
    if needFill then
      let sv := p.2
      if sv ≠ "" && pyStrip sv ≠ "" then
        if field = "Preis" then
          match pyFloat ((cleanNumChars sv.data).filter (fun c => c ≠ '€')) with
          | some q => upsert acc field (toString (pyInt q) ++ " €")
          | none => acc
        else if field = "Wohnfläche" || field = "Grundstück" then
          let val := pyStrip ((sv.replace "ca." "").replace "m²" "")
          if val ≠ "" then upsert acc field (val ++ " m²") else acc
        else upsert acc field sv
      else acc
    else acc) parsed
  String.intercalate "\n" (KURZBESCHREIBUNG_FIELDS.filterMap (fun f =>
    let v := match lookupA filled f with | some v => v | none => ""
    if v ≠ "" && pyStrip v ≠ "" then some (f ++ ": " ++ v) else none))

/-- The scraping-side inputs of `generate_kurzbeschreibung`. -/
structure KurzInput where
  beschreibung : String
  titel : String
  kategorie : String
  preis : String
  ort : String
  zimmer : String
  wohnflaeche : String
  grundstueck : String
  baujahr : String
  objektnummer : String
  deriving Repr

/-- `generate_kurzbeschreibung` (source lines 450-556), with the cache,
the presence of an API key and the model call as explicit capabilities.
A cache hit for a nonempty object key returns before anything else. -/
def generate_kurzbeschreibung (cache : String → String) (hasKey : Bool)
    (model : KurzInput → Option String) (inp : KurzInput) : String :=
  if inp.objektnummer ≠ "" && cache inp.objektnummer ≠ "" then
    cache inp.objektnummer
  else
    let sd : ScrapedData :=
      { kategorie := inp.kategorie, preis := inp.preis, standort := inp.ort,
        zimmer := inp.zimmer, wohnflaeche := inp.wohnflaeche,
        grundstueck := inp.grundstueck, baujahr := inp.baujahr }
    if !hasKey then normalize_kurzbeschreibung "" sd
    else
      match model inp with
      | some out => normalize_kurzbeschreibung (pyStrip out) sd
      | none => normalize_kurzbeschreibung "" sd

/-- `gpt_classify_unterkategorie` (source lines 592-659), with cache and
model call as explicit capabilities.  A cache hit for a nonempty object
key returns before anything else; an invalid or failed model answer falls
back to the keyword heuristic. -/
def gpt_classify_unterkategorie (cache : String → String) (hasKey : Bool)
    (model : String → String → Option String)
    (titel beschreibung objektnummer kategorie : String) : String :=
  if objektnummer ≠ "" && cache objektnummer ≠ "" then cache objektnummer
  else if !hasKey then heuristic_subcategory titel beschreibung
  else
    match model titel beschreibung with
    | some answer =>
      let out := (pyStrip answer).replace "." ""
      if out = "Wohnung" || out = "Haus" || out = "Gewerbe" || out = "Grundstück" then out
      else heuristic_subcategory titel beschreibung
    | none => heuristic_subcategory titel beschreibung

/-! ## Spec-side definition for claim C8

The design document describes a record as invalid when it lacks *both* a
title and a source URL, or has fewer than 3 populated fields.  This
definition follows those words, to be compared against the code's
`is_valid_record`. -/

/-- The claimed invalidity condition, following the spec's words
(`lacking both a title and a source URL, or having fewer than 3
non-empty/non-zero fields`). -/
def claimed_invalid_record (m : FieldMap) : Bool :=
  (pyStrip (getStr m "Titel") = "" && pyStrip (getStr m "Webseite") = "")
    || countFilled m < 3

/-! # Theorems -/

/-! ## Supporting lemmas -/

theorem lookupA_mem {α : Type} {m : List (String × α)} {k : String} {v : α}
    (h : lookupA m k = some v) : (k, v) ∈ m := by
  induction m with
  | nil => simp [lookupA] at h
  | cons p r ih =>
    obtain ⟨k', v'⟩ := p
    by_cases hk : k' = k
    · subst hk
      simp [lookupA] at h
      simp [h]
    · simp [lookupA, hk] at h
      exact List.mem_cons_of_mem _ (ih h)

theorem mem_lookupA {α : Type} {m : List (String × α)} {k : String} {v : α}
    (hnd : (m.map Prod.fst).Nodup) (h : (k, v) ∈ m) : lookupA m k = some v := by
  induction m with
  | nil => simp at h
  | cons p r ih =>
    obtain ⟨k', v'⟩ := p
    simp only [List.map_cons, List.nodup_cons] at hnd
    rcases List.mem_cons.mp h with h1 | h1
    · obtain ⟨hk, hv⟩ := Prod.mk.injEq .. ▸ h1
      simp [lookupA, hk.symm, hv]
    · have hk : k' ≠ k := by
        intro he
        exact hnd.1 (he ▸ List.mem_map_of_mem Prod.fst h1)
      simp [lookupA, hk]
      exact ih hnd.2 h1

theorem lookupA_upsert_self {α : Type} (m : List (String × α)) (k : String) (v : α) :
    lookupA (upsert m k v) k = some v := by
  induction m with
  | nil => simp [upsert, lookupA]
  | cons p r ih =>
    obtain ⟨k', v'⟩ := p
    by_cases hk : k' = k <;> simp [upsert, lookupA, hk, ih]

theorem lookupA_upsert_ne {α : Type} (m : List (String × α)) (k f : String) (v : α)
    (hne : k ≠ f) : lookupA (upsert m k v) f = lookupA m f := by
  induction m with
  | nil => simp [upsert, lookupA, hne]
  | cons p r ih =>
    obtain ⟨k', v'⟩ := p
    by_cases hk : k' = k
    · subst hk
      simp [upsert, lookupA, hne]
    · simp [upsert, hk, lookupA]
      by_cases hf : k' = f <;> simp [hf, ih]

theorem mem_upsert {α : Type} {m : List (String × α)} {k : String} {v : α} {q : String × α}
    (h : q ∈ upsert m k v) : q ∈ m ∨ (q.1 = k ∧ q.2 = v) := by
  induction m with
  | nil =>
    simp [upsert] at h
    simp [h]
  | cons p r ih =>
    obtain ⟨k', v'⟩ := p
    by_cases hk : k' = k
    · subst hk
      simp only [upsert, if_pos rfl] at h
      rcases List.mem_cons.mp h with h1 | h1
      · right
        simp [h1]
      · exact Or.inl (List.mem_cons_of_mem _ h1)
    · simp only [upsert, if_neg hk] at h
      rcases List.mem_cons.mp h with h1 | h1
      · exact Or.inl (h1 ▸ List.mem_cons_self _ _)
      · rcases ih h1 with h2 | h2
        · exact Or.inl (List.mem_cons_of_mem _ h2)
        · exact Or.inr h2

theorem keys_upsert {α : Type} (m : List (String × α)) (k : String) (v : α) :
    (upsert m k v).map Prod.fst =
      if k ∈ m.map Prod.fst then m.map Prod.fst else m.map Prod.fst ++ [k] := by
  induction m with
  | nil => simp [upsert]
  | cons p r ih =>
    obtain ⟨k', v'⟩ := p
    by_cases hk : k' = k
    · subst hk
      simp [upsert]
    · simp only [upsert, if_neg hk, List.map_cons, ih]
      by_cases hm : k ∈ r.map Prod.fst <;>
        simp [hm, hk, Ne.symm hk]

theorem upsert_keys_nodup {α : Type} (m : List (String × α)) (k : String) (v : α)
    (hnd : (m.map Prod.fst).Nodup) : ((upsert m k v).map Prod.fst).Nodup := by
  rw [keys_upsert]
  by_cases hm : k ∈ m.map Prod.fst
  · simpa [hm] using hnd
  · simp [hm, List.nodup_append, hnd]

theorem heuristicPick_cases (g gw w h : Nat) :
    heuristicPick g gw w h =
      if 1 ≤ g then "Grundstück"
      else if 2 ≤ gw then "Gewerbe"
      else if 1 ≤ gw ∧ w ≤ gw ∧ h ≤ gw then "Gewerbe"
      else if 1 ≤ w ∧ h ≤ w then "Wohnung"
      else "Haus" := by
  unfold heuristicPick pickBest
  by_cases h1 : 1 ≤ g
  · simp [h1]
  · have hg : g = 0 := by omega
    subst hg
    simp only [h1, if_false]
    by_cases h2 : 2 ≤ gw
    · simp [h2]
    · simp only [h2, if_false]
      split_ifs <;> simp_all <;> omega

/-! ## C4 — heuristic subcategory classifier -/

/-- C4 counterexample: on the title `"büro"` alone, the `Gewerbe` score is
1 (below the claimed threshold of 2) and the `Wohnung`/`Haus`/`Grundstück`
scores are 0, so the claim dictates the `Haus` default — but the code
returns `"Gewerbe"`, because its final arg-max runs over all four labels,
not just `Wohnung` and `Haus`. -/
theorem heuristic_gewerbe_counterexample :
    heuristic_subcategory "büro" "" = "Gewerbe"
    ∧ keywordScore KEYS_GEWERBE (pyLower ("büro" ++ " " ++ "")) = 1
    ∧ keywordScore KEYS_GRUNDSTUECK (pyLower ("büro" ++ " " ++ "")) = 0
    ∧ keywordScore KEYS_WOHNUNG (pyLower ("büro" ++ " " ++ "")) = 0
    ∧ keywordScore KEYS_HAUS (pyLower ("büro" ++ " " ++ "")) = 0 := by
  decide

/-- C4 (amended): the heuristic classifier returns `Grundstück` at score
≥ 1; else `Gewerbe` at score ≥ 2; else the highest-scoring label among
`Gewerbe`, `Wohnung` and `Haus` when that score is ≥ 1 (so `Gewerbe`
already wins here with score 1), ties broken in that order; else `Haus`. -/
theorem heuristic_subcategory_cases (t b : String) :
    heuristic_subcategory t b =
      (let text := pyLower (t ++ " " ++ b)
       let g := keywordScore KEYS_GRUNDSTUECK text
       let gw := keywordScore KEYS_GEWERBE text
       let w := keywordScore KEYS_WOHNUNG text
       let h := keywordScore KEYS_HAUS text
       if 1 ≤ g then "Grundstück"
       else if 2 ≤ gw then "Gewerbe"
       else if 1 ≤ gw ∧ w ≤ gw ∧ h ≤ gw then "Gewerbe"
       else if 1 ≤ w ∧ h ≤ w then "Wohnung"
       else "Haus") :=
  heuristicPick_cases _ _ _ _

/-! ## C6 — join-key fallback order -/

/-- C6: the reconciliation join key prefers the nonempty `Objektnummer`,
then the nonempty source URL (as `"url:<source_url>"`), then a content
hash of the full field map; and it is a deterministic function of the
field map. -/
theorem unique_key_fallback (m : FieldMap) :
    (pyStrip (getStr m "Objektnummer") ≠ "" →
      unique_key m = "obj:" ++ pyStrip (getStr m "Objektnummer"))
    ∧ (pyStrip (getStr m "Objektnummer") = "" →
        pyStrip (getStr m "Webseite") ≠ "" →
      unique_key m = "url:" ++ pyStrip (getStr m "Webseite"))
    ∧ (pyStrip (getStr m "Objektnummer") = "" →
        pyStrip (getStr m "Webseite") = "" →
      unique_key m = "hash:" ++ toString (contentHash m))
    ∧ (∀ m' : FieldMap, m = m' → unique_key m = unique_key m') := by
  refine ⟨fun h1 => ?_, fun h1 h2 => ?_, fun h1 h2 => ?_, fun m' he => he ▸ rfl⟩
  · simp [unique_key, h1]
  · simp [unique_key, h1, h2]
  · simp [unique_key, h1, h2]

/-- C6 witness: a record with empty object key and nonempty source URL is
keyed `"url:<source_url>"`. -/
theorem unique_key_fallback_witness :
    unique_key [("Objektnummer", Value.vStr ""),
      ("Webseite", Value.vStr "https://alainreinickeimmobilien.de/objekt-1")] =
      "url:https://alainreinickeimmobilien.de/objekt-1" :=
  (unique_key_fallback _).2.1 (by decide) (by decide)

/-! ## C8 — record validity -/

/-- C8 counterexample: a record with a nonempty title, *no* source URL
and four populated fields.  The claim (`invalid exactly when it lacks
both a title and a source URL, or has fewer than 3 populated fields`)
calls it valid, but `is_valid_record` rejects any record missing either
the title or the URL. -/
theorem is_valid_record_counterexample :
    is_valid_record
        [("Titel", Value.vStr "Haus in Kiel"),
         ("Beschreibung", Value.vStr "Schönes Haus"),
         ("Standort", Value.vStr "24103 Kiel"),
         ("Preis", Value.vNum 450000)] = false
    ∧ claimed_invalid_record
        [("Titel", Value.vStr "Haus in Kiel"),
         ("Beschreibung", Value.vStr "Schönes Haus"),
         ("Standort", Value.vStr "24103 Kiel"),
         ("Preis", Value.vNum 450000)] = false := by
  decide

/-- C8 (amended): a record is invalid exactly when it lacks a title *or*
lacks a source URL, or when fewer than 3 of its fields are
non-empty/non-zero; and every invalid store record's id is scheduled for
deletion by the cleanup sweep. -/
theorem is_valid_record_characterization :
    (∀ m : FieldMap, is_valid_record m = false ↔
      (pyStrip (getStr m "Titel") = "" ∨ pyStrip (getStr m "Webseite") = ""
        ∨ countFilled m < 3))
    ∧ ∀ (store : List (String × FieldMap)) (recId : String) (m : FieldMap),
        (recId, m) ∈ store → is_valid_record m = false →
        recId ∈ cleanupDeleteIds store := by
  constructor
  · intro m
    unfold is_valid_record
    by_cases h1 : pyStrip (getStr m "Titel") = "" <;>
      by_cases h2 : pyStrip (getStr m "Webseite") = "" <;>
        simp [h1, h2] <;> omega
  · intro store recId m hmem hinv
    unfold cleanupDeleteIds
    refine List.mem_map.mpr ⟨(recId, m), ?_, rfl⟩
    exact List.mem_filter.mpr ⟨hmem, by simp [hinv]⟩

/-- C8 witness for the amended theorem: a record with only a title and a
URL (2 populated fields) is invalid and its id is scheduled for deletion
by the cleanup sweep. -/
theorem is_valid_record_characterization_witness :
    "recA" ∈ cleanupDeleteIds
      [("recA", [("Titel", Value.vStr "Objekt"),
                 ("Webseite", Value.vStr "https://x.de/1")])] :=
  is_valid_record_characterization.2 _ "recA"
    [("Titel", Value.vStr "Objekt"), ("Webseite", Value.vStr "https://x.de/1")]
    (by decide) (by decide)

/-! ## C10 — Gewerbe category from price -/

/-- C10: when the subcategory is `Gewerbe` and the overview page supplied
no category hint, the category is recomputed from the price text:
`Mieten` when the parsed value is below 30000, `Kaufen` otherwise, and
`Kaufen` when the price is absent or unparsable. -/
theorem gewerbe_kategorie_cases (unterkat preisText kategorie : String)
    (hg : unterkat = "Gewerbe") :
    (∀ v : ℚ, parsePreisField preisText = some v → v < 30000 →
      applyGewerbeKategorie unterkat none preisText kategorie = "Mieten")
    ∧ (∀ v : ℚ, parsePreisField preisText = some v → ¬v < 30000 →
      applyGewerbeKategorie unterkat none preisText kategorie = "Kaufen")
    ∧ (parsePreisField preisText = none →
      applyGewerbeKategorie unterkat none preisText kategorie = "Kaufen") := by
  subst hg
  refine ⟨fun v hv hlt => ?_, fun v hv hge => ?_, fun hn => ?_⟩ <;>
    simp [applyGewerbeKategorie, gewerbeKategorieFromPreis, *]

/-- C10 witness: a Gewerbe listing with price text `"1.250 €"` (a monthly
rent) gets category `Mieten`; one with `"450.000 €"` gets `Kaufen`; one
with empty price text gets `Kaufen`. -/
theorem gewerbe_kategorie_cases_witness :
    applyGewerbeKategorie "Gewerbe" none "1.250 €" "Kaufen" = "Mieten"
    ∧ applyGewerbeKategorie "Gewerbe" none "450.000 €" "Kaufen" = "Kaufen"
    ∧ applyGewerbeKategorie "Gewerbe" none "" "Kaufen" = "Kaufen" :=
  ⟨(gewerbe_kategorie_cases _ _ _ rfl).1 1250 (by decide) (by decide),
   (gewerbe_kategorie_cases _ _ _ rfl).2.1 450000 (by decide) (by decide),
   (gewerbe_kategorie_cases _ _ _ rfl).2.2 (by decide)⟩

/-! ## C7 — cache hits never consult the model -/

/-- C7: with a nonempty object key cached in the subcategory cache
(respectively the summary cache), `gpt_classify_unterkategorie`
(respectively `generate_kurzbeschreibung`) returns the cached value, and
its result is identical under any two model capabilities and API-key
configurations — the model is never consulted on a cache hit. -/
theorem cache_hit_ignores_model
    (subCache sumCache : String → String) (hasKey1 hasKey2 : Bool)
    (cmodel1 cmodel2 : String → String → Option String)
    (kmodel1 kmodel2 : KurzInput → Option String)
    (titel beschreibung objektnummer kategorie : String) (inp : KurzInput)
    (hobj : objektnummer ≠ "") (hc : subCache objektnummer ≠ "")
    (hiobj : inp.objektnummer ≠ "") (hs : sumCache inp.objektnummer ≠ "") :
    gpt_classify_unterkategorie subCache hasKey1 cmodel1
        titel beschreibung objektnummer kategorie = subCache objektnummer
    ∧ gpt_classify_unterkategorie subCache hasKey1 cmodel1
        titel beschreibung objektnummer kategorie
      = gpt_classify_unterkategorie subCache hasKey2 cmodel2
        titel beschreibung objektnummer kategorie
    ∧ generate_kurzbeschreibung sumCache hasKey1 kmodel1 inp
      = sumCache inp.objektnummer
    ∧ generate_kurzbeschreibung sumCache hasKey1 kmodel1 inp
      = generate_kurzbeschreibung sumCache hasKey2 kmodel2 inp := by
  have h1 : ∀ (hk : Bool) (cm : String → String → Option String),
      gpt_classify_unterkategorie subCache hk cm
        titel beschreibung objektnummer kategorie = subCache objektnummer := by
    intro hk cm
    simp [gpt_classify_unterkategorie, hobj, hc]
  have h2 : ∀ (hk : Bool) (km : KurzInput → Option String),
      generate_kurzbeschreibung sumCache hk km inp = sumCache inp.objektnummer := by
    intro hk km
    simp [generate_kurzbeschreibung, hiobj, hs]
  exact ⟨h1 hasKey1 cmodel1, by rw [h1, h1], h2 hasKey1 kmodel1, by rw [h2, h2]⟩

/-- C7 witness: with object key `"OBJ1"` cached as `Wohnung` and a cached
summary, the classification and the summary equal the cached values under
an always-failing model as well as under a model answering `"Haus"`. -/
theorem cache_hit_ignores_model_witness :
    gpt_classify_unterkategorie (fun k => if k = "OBJ1" then "Wohnung" else "")
        true (fun _ _ => none) "Villa am See" "großes Haus" "OBJ1" "Kaufen"
      = "Wohnung"
    ∧ gpt_classify_unterkategorie (fun k => if k = "OBJ1" then "Wohnung" else "")
        true (fun _ _ => none) "Villa am See" "großes Haus" "OBJ1" "Kaufen"
      = gpt_classify_unterkategorie (fun k => if k = "OBJ1" then "Wohnung" else "")
        false (fun _ _ => some "Haus") "Villa am See" "großes Haus" "OBJ1" "Kaufen" := by
  have h := cache_hit_ignores_model
    (fun k => if k = "OBJ1" then "Wohnung" else "")
    (fun k => if k = "OBJ1" then "Objekttyp: Wohnung" else "")
    true false (fun _ _ => none) (fun _ _ => some "Haus")
    (fun _ => none) (fun _ => some "ignored")
    "Villa am See" "großes Haus" "OBJ1" "Kaufen"
    { beschreibung := "großes Haus", titel := "Villa am See",
      kategorie := "Kaufen", preis := "", ort := "", zimmer := "",
      wohnflaeche := "", grundstueck := "", baujahr := "",
      objektnummer := "OBJ1" }
    (by decide) (by decide) (by decide) (by decide)
  exact ⟨h.1, h.2.1⟩

/-! ## C9 — updates never touch remote-only fields -/

theorem lookupA_applyDiff_notmem (old d : FieldMap) (fld : String)
    (h : fld ∉ d.map Prod.fst) :
    lookupA (applyDiff old d) fld = lookupA old fld := by
  induction d generalizing old with
  | nil => rfl
  | cons p r ih =>
    simp only [List.map_cons, List.mem_cons, not_or] at h
    simp only [applyDiff, List.foldl_cons]
    rw [show (List.foldl (fun acc p => upsert acc p.1 p.2) (upsert old p.1 p.2) r)
        = applyDiff (upsert old p.1 p.2) r from rfl]
    rw [ih _ h.2, lookupA_upsert_ne _ _ _ _ (fun he => h.1 he.symm)]

/-- C9: the field diff of a scheduled update only carries field names
present in the desired record, and applying such a diff as a patch leaves
every field absent from the desired record unchanged on the remote
record. -/
theorem update_diff_frame (fields old : FieldMap) (fld : String)
    (hf : fld ∉ fields.map Prod.fst) :
    fld ∉ (diffFields fields old).map Prod.fst
    ∧ lookupA (applyDiff old (diffFields fields old)) fld = lookupA old fld := by
  have hsub : fld ∉ (diffFields fields old).map Prod.fst := by
    intro hmem
    rcases List.mem_map.mp hmem with ⟨q, hq, hfst⟩
    exact hf (hfst ▸ List.mem_map_of_mem Prod.fst (List.mem_of_mem_filter hq))
  exact ⟨hsub, lookupA_applyDiff_notmem _ _ _ hsub⟩

/-- C9 witness: a remote-only field (`Notizen`) survives an update whose
desired record does not mention it. -/
theorem update_diff_frame_witness :
    "Notizen" ∉ (diffFields
        [("Titel", Value.vStr "Neu")]
        [("Titel", Value.vStr "Alt"), ("Notizen", Value.vStr "intern")]).map Prod.fst
    ∧ lookupA (applyDiff
        [("Titel", Value.vStr "Alt"), ("Notizen", Value.vStr "intern")]
        (diffFields [("Titel", Value.vStr "Neu")]
          [("Titel", Value.vStr "Alt"), ("Notizen", Value.vStr "intern")])) "Notizen"
      = lookupA [("Titel", Value.vStr "Alt"), ("Notizen", Value.vStr "intern")] "Notizen" :=
  update_diff_frame [("Titel", Value.vStr "Neu")]
    [("Titel", Value.vStr "Alt"), ("Notizen", Value.vStr "intern")]
    "Notizen" (by decide)

/-! ## C5 — full-replace plan -/

def Op.isDel : Op → Bool
  | Op.del _ => true
  | _ => false

def Op.isCreate : Op → Bool
  | Op.create _ => true
  | _ => false

def opsDeleteIds (ops : List Op) : List String :=
  ops.filterMap (fun o => match o with | Op.del i => some i | _ => none)

def opsCreates (ops : List Op) : List FieldMap :=
  ops.filterMap (fun o => match o with | Op.create f => some f | _ => none)

def opsUpdates (ops : List Op) : List (String × FieldMap) :=
  ops.filterMap (fun o => match o with | Op.update i f => some (i, f) | _ => none)

theorem opsDeleteIds_map_del (ms : List (String × FieldMap)) :
    opsDeleteIds (ms.map (fun p => Op.del p.1)) = ms.map Prod.fst := by
  induction ms with
  | nil => rfl
  | cons p r ih => simpa [opsDeleteIds, List.filterMap_cons] using ih

theorem opsDeleteIds_map_create (rows : List FieldMap) :
    opsDeleteIds (rows.map Op.create) = [] := by
  induction rows with
  | nil => rfl
  | cons r rs ih => simpa [opsDeleteIds, List.filterMap_cons] using ih

theorem opsCreates_map_del (ms : List (String × FieldMap)) :
    opsCreates (ms.map (fun p => Op.del p.1)) = [] := by
  induction ms with
  | nil => rfl
  | cons p r ih => simpa [opsCreates, List.filterMap_cons] using ih

theorem opsCreates_map_create (rows : List FieldMap) :
    opsCreates (rows.map Op.create) = rows := by
  induction rows with
  | nil => rfl
  | cons r rs ih => simpa [opsCreates, List.filterMap_cons] using ih

theorem opsUpdates_map_del (ms : List (String × FieldMap)) :
    opsUpdates (ms.map (fun p => Op.del p.1)) = [] := by
  induction ms with
  | nil => rfl
  | cons p r ih => simpa [opsUpdates, List.filterMap_cons] using ih

theorem opsUpdates_map_create (rows : List FieldMap) :
    opsUpdates (rows.map Op.create) = [] := by
  induction rows with
  | nil => rfl
  | cons r rs ih => simpa [opsUpdates, List.filterMap_cons] using ih

/-- C5: in full-replace mode the issued mutations delete exactly the ids
of all existing records and create exactly the desired records, schedule
no updates, do not depend on the contents (fields) of the existing
records, and every deletion precedes every creation. -/
theorem full_replace_plan (allowed : List String)
    (ep ep' : List (String × FieldMap)) (rows : List FieldMap) :
    opsDeleteIds (syncOps true allowed ep rows) = ep.map Prod.fst
    ∧ opsCreates (syncOps true allowed ep rows) = rows
    ∧ opsUpdates (syncOps true allowed ep rows) = []
    ∧ (ep.map Prod.fst = ep'.map Prod.fst →
        syncOps true allowed ep rows = syncOps true allowed ep' rows)
    ∧ (∀ i j (hi : i < (syncOps true allowed ep rows).length)
        (hj : j < (syncOps true allowed ep rows).length),
        ((syncOps true allowed ep rows).get ⟨i, hi⟩).isDel = true →
        ((syncOps true allowed ep rows).get ⟨j, hj⟩).isCreate = true → i < j) := by
  have hL : syncOps true allowed ep rows
      = ep.map (fun p => Op.del p.1) ++ rows.map Op.create := by
    simp [syncOps]
  refine ⟨?_, ?_, ?_, ?_, ?_⟩
  · rw [hL]
    simp only [opsDeleteIds, List.filterMap_append]
    rw [show (ep.map (fun p => Op.del p.1)).filterMap
          (fun o => match o with | Op.del i => some i | _ => none)
        = opsDeleteIds (ep.map (fun p => Op.del p.1)) from rfl,
      show (rows.map Op.create).filterMap
          (fun o => match o with | Op.del i => some i | _ => none)
        = opsDeleteIds (rows.map Op.create) from rfl,
      opsDeleteIds_map_del, opsDeleteIds_map_create, List.append_nil]
  · rw [hL]
    simp only [opsCreates, List.filterMap_append]
    rw [show (ep.map (fun p => Op.del p.1)).filterMap
          (fun o => match o with | Op.create f => some f | _ => none)
        = opsCreates (ep.map (fun p => Op.del p.1)) from rfl,
      show (rows.map Op.create).filterMap
          (fun o => match o with | Op.create f => some f | _ => none)
        = opsCreates (rows.map Op.create) from rfl,
      opsCreates_map_del, opsCreates_map_create, List.nil_append]
  · rw [hL]
    simp only [opsUpdates, List.filterMap_append]
    rw [show (ep.map (fun p => Op.del p.1)).filterMap
          (fun o => match o with | Op.update i f => some (i, f) | _ => none)
        = opsUpdates (ep.map (fun p => Op.del p.1)) from rfl,
      show (rows.map Op.create).filterMap
          (fun o => match o with | Op.update i f => some (i, f) | _ => none)
        = opsUpdates (rows.map Op.create) from rfl,
      opsUpdates_map_del, opsUpdates_map_create, List.append_nil]
  · intro hids
    have hL' : syncOps true allowed ep' rows
        = ep'.map (fun p => Op.del p.1) ++ rows.map Op.create := by
      simp [syncOps]
    have h1 : ep.map (fun p => Op.del p.1) = (ep.map Prod.fst).map Op.del := by
      rw [List.map_map]
      rfl
    have h2 : ep'.map (fun p => Op.del p.1) = (ep'.map Prod.fst).map Op.del := by
      rw [List.map_map]
      rfl
    rw [hL, hL', h1, h2, hids]
  · intro i j hi hj hdel hcreate
    have hi' : i < (ep.map (fun p => Op.del p.1) ++ rows.map Op.create).length := by
      simpa [hL] using hi
    have hj' : j < (ep.map (fun p => Op.del p.1) ++ rows.map Op.create).length := by
      simpa [hL] using hj
    have hdel' : ((ep.map (fun p => Op.del p.1) ++ rows.map Op.create).get
        ⟨i, hi'⟩).isDel = true := hdel
    have hcreate' : ((ep.map (fun p => Op.del p.1) ++ rows.map Op.create).get
        ⟨j, hj'⟩).isCreate = true := hcreate
    have hiL : i < (ep.map (fun p => Op.del p.1)).length := by
      by_contra hge
      push_neg at hge
      have hjr : i - (ep.map (fun p => Op.del p.1)).length < (rows.map Op.create).length := by
        simp only [List.length_append] at hi'
        omega
      rw [List.get_eq_getElem, List.getElem_append_right hge] at hdel'
      rcases List.mem_map.mp (List.getElem_mem hjr) with ⟨r, _, hr⟩
      rw [← hr] at hdel'
      simp [Op.isDel] at hdel'
    have hjL : (ep.map (fun p => Op.del p.1)).length ≤ j := by
      by_contra hlt
      push_neg at hlt
      rw [List.get_eq_getElem, List.getElem_append_left hlt] at hcreate'
      rcases List.mem_map.mp (List.getElem_mem hlt) with ⟨q, _, hq⟩
      rw [← hq] at hcreate'
      simp [Op.isCreate] at hcreate'
    exact Nat.lt_of_lt_of_le hiL hjL

/-- C5 witness: one existing record and one desired row — the single
delete (index 0) precedes the single create (index 1). -/
theorem full_replace_plan_witness :
    opsDeleteIds (syncOps true [] [("recA", [("Titel", Value.vStr "Alt")])]
        [[("Titel", Value.vStr "Neu")]]) = ["recA"]
    ∧ (0 : Nat) < 1 :=
  ⟨(full_replace_plan [] [("recA", [("Titel", Value.vStr "Alt")])] []
      [[("Titel", Value.vStr "Neu")]]).1,
   (full_replace_plan [] [("recA", [("Titel", Value.vStr "Alt")])] []
      [[("Titel", Value.vStr "Neu")]]).2.2.2.2 0 1 (by decide) (by decide)
      (by decide) (by decide)⟩

/-! ## Scanner and parser lemmas for the price claims -/

theorem stripWs_append_ws (x : List Char) (c : Char) (hc : isWsChar c) :
    stripWs (x ++ [c]) = stripWs x := by
  unfold stripWs
  rw [List.dropWhile_append]
  by_cases he : (x.dropWhile isWsChar).isEmpty
  · rw [if_pos he]
    simp [List.dropWhile_cons, hc, List.isEmpty_iff.mp he]
  · rw [if_neg he]
    rw [List.reverse_append]
    simp [List.dropWhile_cons, hc]

theorem pyFloat_congr_strip (a b : List Char) (h : stripWs a = stripWs b) :
    pyFloat a = pyFloat b := by
  unfold pyFloat
  rw [h]

theorem matchNumEuro_fst (cs run tail : List Char)
    (h : matchNumEuro cs = some (run, tail)) : run = cs.takeWhile isPriceChar := by
  simp only [matchNumEuro] at h
  split at h
  · simp at h
  · split at h
    · simp at h
      exact h.1.symm
    · simp at h

theorem matchNumEuro_chars (cs run tail : List Char)
    (h : matchNumEuro cs = some (run, tail)) : ∀ c ∈ run, isPriceChar c := by
  intro c hc
  rw [matchNumEuro_fst cs run tail h] at hc
  exact List.mem_takeWhile_imp hc

theorem scanPricesAux_chars (fuel : Nat) :
    ∀ (cs run : List Char), run ∈ scanPricesAux fuel cs → ∀ c ∈ run, isPriceChar c := by
  induction fuel with
  | zero =>
    intro cs run h
    simp [scanPricesAux] at h
  | succ n ih =>
    intro cs run h
    match cs with
    | [] => simp [scanPricesAux] at h
    | c0 :: rest =>
      simp only [scanPricesAux] at h
      cases he : matchNumEuro (c0 :: rest) with
      | some pr =>
        rw [he] at h
        rcases List.mem_cons.mp h with h1 | h1
        · exact h1 ▸ matchNumEuro_chars _ pr.1 pr.2 (by rw [he])
        · exact ih pr.2 run h1
      | none =>
        rw [he] at h
        exact ih rest run h

theorem priceTokens_chars (text t : String) (h : t ∈ priceTokens text) :
    ∀ c ∈ t.data, isPriceChar c := by
  unfold priceTokens at h
  rcases List.mem_map.mp h with ⟨run, hrun, hmk⟩
  intro c hc
  rw [← hmk] at hc
  exact scanPricesAux_chars _ _ _ hrun c hc

theorem matchRentTail_chars (cs run tail : List Char)
    (h : matchRentTail cs = some (run, tail)) : ∀ c ∈ run, isPriceChar c := by
  simp only [matchRentTail] at h
  cases hcs : List.dropWhile isWsChar cs with
  | nil =>
    rw [hcs] at h
    simp at h
  | cons c rest =>
    rw [hcs] at h
    dsimp only at h
    by_cases hcd : (decide (c = ':') || decide (c = '.')) = true
    · rw [if_pos hcd] at h
      cases hm : matchNumEuro (List.dropWhile isWsChar rest) with
      | some r =>
        rw [hm] at h
        simp only [Option.some.injEq] at h
        rw [h] at hm
        exact matchNumEuro_chars _ _ _ hm
      | none =>
        rw [hm] at h
        exact matchNumEuro_chars _ _ _ h
    · rw [if_neg hcd] at h
      exact matchNumEuro_chars _ _ _ h

theorem matchRent_chars (cs run tail : List Char)
    (h : matchRent cs = some (run, tail)) : ∀ c ∈ run, isPriceChar c := by
  unfold matchRent at h
  split at h
  · exact matchRentTail_chars _ _ _ h
  · split at h
    · exact matchRentTail_chars _ _ _ h
    · split at h
      · exact matchRentTail_chars _ _ _ h
      · simp at h

theorem scanRentAux_chars (fuel : Nat) :
    ∀ (cs run : List Char), run ∈ scanRentAux fuel cs → ∀ c ∈ run, isPriceChar c := by
  induction fuel with
  | zero =>
    intro cs run h
    simp [scanRentAux] at h
  | succ n ih =>
    intro cs run h
    match cs with
    | [] => simp [scanRentAux] at h
    | c0 :: rest =>
      simp only [scanRentAux] at h
      cases he : matchRent (c0 :: rest) with
      | some pr =>
        rw [he] at h
        rcases List.mem_cons.mp h with h1 | h1
        · exact h1 ▸ matchRent_chars _ pr.1 pr.2 (by rw [he])
        · exact ih pr.2 run h1
      | none =>
        rw [he] at h
        exact ih rest run h

theorem rentCaptures_chars (text m : String) (h : m ∈ rentCaptures text) :
    ∀ c ∈ m.data, isPriceChar c := by
  unfold rentCaptures at h
  rcases List.mem_map.mp h with ⟨run, hrun, hmk⟩
  intro c hc
  rw [← hmk] at hc
  exact scanRentAux_chars _ _ _ hrun c hc

/-- Re-parsing a stored price string `t ++ " €"` (as `make_record` and the
Gewerbe rule do) recovers the value of the bare token `t`. -/
theorem parsePreisField_token (t : String) (ht : ∀ c ∈ t.data, isPriceChar c) :
    parsePreisField (t ++ " €") = parseEuroNumber t := by
  unfold parsePreisField parseEuroNumber
  have hdata : (t ++ " €").data = t.data ++ [' ', '€'] := by
    rw [String.data_append]
  rw [hdata]
  have hne : ∀ c ∈ t.data, c ≠ '€' := by
    intro c hc he
    have := ht c hc
    rw [he] at this
    simp [isPriceChar, isDigitChar] at this
  have hfilter : (t.data ++ [' ', '€']).filter (fun c => c ≠ '€') = t.data ++ [' '] := by
    rw [List.filter_append]
    rw [List.filter_eq_self.mpr (by
      intro c hc
      simpa using hne c hc)]
    rfl
  rw [hfilter]
  have hclean : cleanNumChars (t.data ++ [' ']) = cleanNumChars t.data ++ [' '] := by
    unfold cleanNumChars
    rw [List.filter_append, List.map_append]
    rfl
  rw [hclean]
  exact pyFloat_congr_strip _ _ (stripWs_append_ws _ ' ' (by decide))

/-- The chosen element of the `prices` list is a member attaining the
maximal value. -/
theorem tupleMax_spec (l : List (ℚ × String)) (x : ℚ × String)
    (h : tupleMax l = some x) : x ∈ l ∧ ∀ y ∈ l, y.1 ≤ x.1 := by
  match l with
  | [] => simp [tupleMax] at h
  | a :: rest =>
    simp only [tupleMax, Option.some.injEq] at h
    have main : ∀ (r : List (ℚ × String)) (a : ℚ × String),
        (r.foldl (fun b y =>
          if b.1 < y.1 || (b.1 = y.1 && b.2 < y.2) then y else b) a) ∈ a :: r
        ∧ a.1 ≤ (r.foldl (fun b y =>
          if b.1 < y.1 || (b.1 = y.1 && b.2 < y.2) then y else b) a).1
        ∧ ∀ y ∈ r, y.1 ≤ (r.foldl (fun b y =>
          if b.1 < y.1 || (b.1 = y.1 && b.2 < y.2) then y else b) a).1 := by
      intro r
      induction r with
      | nil => simp
      | cons b rest ih =>
        intro a
        simp only [List.foldl_cons]
        set a' := if a.1 < b.1 || (a.1 = b.1 && a.2 < b.2) then b else a with ha'
        have hmem : a' = a ∨ a' = b := by
          rw [ha']
          split <;> simp
        have hale : a.1 ≤ a'.1 ∧ b.1 ≤ a'.1 := by
          by_cases hcond : (decide (a.1 < b.1)
              || (decide (a.1 = b.1) && decide (a.2 < b.2))) = true
          · rw [ha', if_pos hcond]
            have hor : a.1 < b.1 ∨ a.1 = b.1 := by
              rcases Bool.or_eq_true_iff.mp hcond with hlt | heq
              · exact Or.inl (of_decide_eq_true hlt)
              · exact Or.inr (of_decide_eq_true (Bool.and_eq_true_iff.mp heq).1)
            exact ⟨hor.elim le_of_lt le_of_eq, le_refl _⟩
          · rw [ha', if_neg hcond]
            refine ⟨le_refl _, ?_⟩
            by_contra hgt
            push_neg at hgt
            exact hcond (by simp [hgt])
        rcases ih a' with ⟨hm, hle, hall⟩
        refine ⟨?_, ?_, ?_⟩
        · rcases List.mem_cons.mp hm with h1 | h1
          · rcases hmem with h2 | h2
            · rw [h1, h2]
              exact List.mem_cons_self _ _
            · rw [h1, h2]
              exact List.mem_cons_of_mem _ (List.mem_cons_self _ _)
          · exact List.mem_cons_of_mem _ (List.mem_cons_of_mem _ h1)
        · exact le_trans hale.1 hle
        · intro y hy
          rcases List.mem_cons.mp hy with h1 | h1
          · exact h1 ▸ le_trans hale.2 hle
          · exact hall y h1
    rcases main rest a with ⟨hm, hle, hall⟩
    rw [h] at hm hle hall
    refine ⟨hm, ?_⟩
    intro y hy
    rcases List.mem_cons.mp hy with h1 | h1
    · exact h1 ▸ hle
    · exact hall y h1

/-- Decomposition of membership in the `prices` list: each entry is a
scanned token above the noise threshold, stored as `token ++ " €"`. -/
theorem validPrices_mem (text : String) (v : ℚ) (s : String)
    (h : (v, s) ∈ validPrices text) :
    ∃ t, t ∈ priceTokens (pyLower text) ∧ parseEuroNumber t = some v
      ∧ 100 < v ∧ s = t ++ " €" := by
  unfold validPrices at h
  rcases List.mem_filterMap.mp h with ⟨t, hmem, ht⟩
  refine ⟨t, hmem, ?_⟩
  cases hp : parseEuroNumber t with
  | none => rw [hp] at ht; simp at ht
  | some w =>
    rw [hp] at ht
    by_cases hw : 100 < w
    · simp only [hw, if_pos, Option.some.injEq] at ht
      obtain ⟨hv, hs⟩ := Prod.mk.injEq .. ▸ ht
      exact ⟨hv ▸ rfl, hv ▸ hw, hs.symm⟩
    · simp [hw] at ht

/-- Decomposition of a successful rent scan: the returned capture is a
scanned rent figure parsing above the noise threshold. -/
theorem firstValidRent_mem (text m : String) (h : firstValidRent text = some m) :
    m ∈ rentCaptures text ∧ ∃ v : ℚ, parseEuroNumber m = some v ∧ 100 < v := by
  unfold firstValidRent at h
  rcases List.exists_of_findSome?_eq_some h with ⟨c, hmem, hc⟩
  cases hp : parseEuroNumber c with
  | none => rw [hp] at hc; simp at hc
  | some w =>
    rw [hp] at hc
    by_cases hw : 100 < w
    · simp only [hw, if_pos, Option.some.injEq] at hc
      subst hc
      exact ⟨hmem, w, hp, hw⟩
    · simp [hw] at hc

/-! ## C3 — maximal currency figure becomes the price -/

/-- C3: the extracted price is the maximum of all currency-tagged tokens
above the noise threshold 100 (parsed with `.` as thousands and `,` as
decimal separator): the chosen pair is a member of the collected price
list, its value dominates every collected value, re-parsing the stored
price string yields that value, and absent a rent override the extraction
returns exactly this price with the default `Kaufen` category. -/
theorem price_extraction_keeps_max (text : String) (v : ℚ) (s : String)
    (hmax : tupleMax (validPrices text) = some (v, s)) :
    (v, s) ∈ validPrices text
    ∧ (∀ p ∈ validPrices text, p.1 ≤ v)
    ∧ (∃ t, t ∈ priceTokens (pyLower text) ∧ parseEuroNumber t = some v
        ∧ 100 < v ∧ s = t ++ " €")
    ∧ parsePreisField s = some v
    ∧ (firstValidRent text = none →
        extractPriceCat text = { preis := s, kategorie := "Kaufen" }) := by
  obtain ⟨hmem, hle⟩ := tupleMax_spec _ _ hmax
  obtain ⟨t, htok, hparse, hv, hs⟩ := validPrices_mem text v s hmem
  refine ⟨hmem, hle, ⟨t, htok, hparse, hv, hs⟩, ?_, ?_⟩
  · rw [hs, parsePreisField_token t (priceTokens_chars _ t htok)]
    exact hparse
  · intro hrent
    unfold extractPriceCat
    rw [hrent, hmax]

/-- C3 witness: `"Kaufpreis 450.000 € bei 3 Zimmern"` yields the price
`450.000 €`, which parses to 450000 — not 3. -/
theorem price_extraction_keeps_max_witness :
    extractPriceCat "Kaufpreis 450.000 € bei 3 Zimmern"
      = { preis := "450.000 €", kategorie := "Kaufen" }
    ∧ parsePreisField "450.000 €" = some 450000 :=
  ⟨(price_extraction_keeps_max "Kaufpreis 450.000 € bei 3 Zimmern"
      450000 "450.000 €" (by decide)).2.2.2.2 (by decide),
   (price_extraction_keeps_max "Kaufpreis 450.000 € bei 3 Zimmern"
      450000 "450.000 €" (by decide)).2.2.2.1⟩

/-! ## C2 — rent label overrides price and category -/

/-- C2: whenever the rent re-scan finds a labeled figure above the noise
threshold, the extraction stores that figure as the price (overriding the
maximal currency figure) and forces `kategorie = "Mieten"`; the
overview-page hint never overrides it, and re-parsing the stored price
recovers the rent value. -/
theorem rent_override_forces_mieten (text m : String) (hint : Option String)
    (hm : firstValidRent text = some m) :
    extractPriceCat text = { preis := m ++ " €", kategorie := "Mieten" }
    ∧ applyOverviewKategorie hint (extractPriceCat text).kategorie = "Mieten"
    ∧ ∃ v : ℚ, parseEuroNumber m = some v ∧ 100 < v
        ∧ parsePreisField ((extractPriceCat text).preis) = some v := by
  have hext : extractPriceCat text = { preis := m ++ " €", kategorie := "Mieten" } := by
    unfold extractPriceCat
    rw [hm]
  obtain ⟨hmem, v, hparse, hv⟩ := firstValidRent_mem text m hm
  refine ⟨hext, ?_, v, hparse, hv, ?_⟩
  · rw [hext]
    cases hint with
    | none => rfl
    | some h => simp [applyOverviewKategorie]
  · rw [hext]
    rw [show ({ preis := m ++ " €", kategorie := "Mieten" } : PriceCat).preis
        = m ++ " €" from rfl]
    rw [parsePreisField_token m (rentCaptures_chars _ m hmem)]
    exact hparse

/-- C2 witness: text with a larger unrelated figure (500.000 €) and
`"Warmmiete: 1.250 €"` yields category `Mieten` and price `1.250 €`
(value 1250), even under an overview hint of `Kaufen`. -/
theorem rent_override_forces_mieten_witness :
    extractPriceCat "Kaufpreis 500.000 € und Warmmiete: 1.250 € warm"
      = { preis := "1.250 €", kategorie := "Mieten" }
    ∧ applyOverviewKategorie (some "Kaufen")
        (extractPriceCat "Kaufpreis 500.000 € und Warmmiete: 1.250 € warm").kategorie
      = "Mieten"
    ∧ parsePreisField "1.250 €" = some 1250 :=
  ⟨(rent_override_forces_mieten "Kaufpreis 500.000 € und Warmmiete: 1.250 € warm"
      "1.250" (some "Kaufen") (by decide)).1,
   (rent_override_forces_mieten "Kaufpreis 500.000 € und Warmmiete: 1.250 € warm"
      "1.250" (some "Kaufen") (by decide)).2.1,
   by decide⟩

/-! ## C1 — incremental reconciliation -/

theorem mem_keys_unique {α : Type} {m : List (String × α)}
    (hnd : (m.map Prod.fst).Nodup) {k : String} {v w : α}
    (hv : (k, v) ∈ m) (hw : (k, w) ∈ m) : v = w := by
  have h := List.inj_on_of_nodup_map hnd hv hw rfl
  exact congrArg Prod.snd h

theorem buildDesired_keys_nodup (allowed : List String) (rows : List FieldMap) :
    ((buildDesired allowed rows).map Prod.fst).Nodup := by
  unfold buildDesired
  have main : ∀ (rs : List FieldMap) (acc : List (String × FieldMap)),
      (acc.map Prod.fst).Nodup →
      ((rs.foldl (fun acc r =>
        let k := unique_key r
        match lookupA acc k with
        | some cur =>
          if (getStr cur "Beschreibung").length < (getStr r "Beschreibung").length then
            upsert acc k (sanitize_record_for_airtable r allowed)
          else acc
        | none => upsert acc k (sanitize_record_for_airtable r allowed)) acc).map
          Prod.fst).Nodup := by
    intro rs
    induction rs with
    | nil => intro acc h; exact h
    | cons r rest ih =>
      intro acc h
      simp only [List.foldl_cons]
      apply ih
      cases hl : lookupA acc (unique_key r) with
      | some cur =>
        dsimp only
        by_cases hlen :
            (getStr cur "Beschreibung").length < (getStr r "Beschreibung").length
        · rw [if_pos hlen]
          exact upsert_keys_nodup _ _ _ h
        · rw [if_neg hlen]
          exact h
      | none =>
        dsimp only
        exact upsert_keys_nodup _ _ _ h
  exact main rows [] (by simp)

/-- Decomposition of membership in the update list. -/
theorem toUpdate_mem (em : List (String × (String × FieldMap)))
    (dm : List (String × FieldMap)) (recId : String) (d : FieldMap)
    (h : (recId, d) ∈ toUpdate em dm) :
    ∃ k f old, (k, f) ∈ dm ∧ lookupA em k = some (recId, old)
      ∧ d = diffFields f old ∧ diffFields f old ≠ [] := by
  unfold toUpdate at h
  rcases List.mem_filterMap.mp h with ⟨p, hp, hpv⟩
  obtain ⟨k, f⟩ := p
  cases hl : lookupA em k with
  | none =>
    rw [hl] at hpv
    simp at hpv
  | some pr =>
    obtain ⟨recId', old⟩ := pr
    rw [hl] at hpv
    dsimp only at hpv
    by_cases he : (diffFields f old).isEmpty = true
    · rw [if_pos he] at hpv
      simp at hpv
    · rw [if_neg he] at hpv
      simp only [Option.some.injEq] at hpv
      obtain ⟨h1, h2⟩ := Prod.mk.injEq .. ▸ hpv
      refine ⟨k, f, old, hp, ?_, h2.symm, ?_⟩
      · rw [hl, h1]
      · intro hnil
        rw [hnil] at he
        simp at he

/-- C1: in incremental sync, a desired record whose key has an existing
record is scheduled as an update carrying exactly the fields whose value
differs from the existing record (membership characterization included),
and no update at all when the diff is empty; a desired record with no
existing key is scheduled for creation; and every existing record whose
key has no desired record has its store id scheduled for deletion.  (The
hypothesis that distinct existing entries carry distinct store ids always
holds for store listings.) -/
theorem incremental_reconcile_correct
    (ep : List (String × FieldMap)) (allowed : List String) (rows : List FieldMap)
    (hrid : ((buildExisting ep).map (fun p => p.2.1)).Nodup) :
    (∀ k f, (k, f) ∈ buildDesired allowed rows →
      (∀ recId old, lookupA (buildExisting ep) k = some (recId, old) →
        (∀ fld x, (fld, x) ∈ diffFields f old ↔
            ((fld, x) ∈ f ∧ lookupA old fld ≠ some x))
        ∧ (diffFields f old ≠ [] →
            (recId, diffFields f old)
              ∈ toUpdate (buildExisting ep) (buildDesired allowed rows))
        ∧ (diffFields f old = [] →
            ∀ d, (recId, d) ∉ toUpdate (buildExisting ep) (buildDesired allowed rows)))
      ∧ (lookupA (buildExisting ep) k = none →
          f ∈ toCreate (buildExisting ep) (buildDesired allowed rows)))
    ∧ (∀ k recId old, (k, (recId, old)) ∈ buildExisting ep →
        k ∉ (buildDesired allowed rows).map Prod.fst →
        recId ∈ toDeleteIds (buildExisting ep) (buildDesired allowed rows)) := by
  constructor
  · intro k f hkf
    constructor
    · intro recId old hl
      refine ⟨?_, ?_, ?_⟩
      · intro fld x
        unfold diffFields
        rw [List.mem_filter]
        constructor
        · intro ⟨h1, h2⟩
          exact ⟨h1, by simpa using h2⟩
        · intro ⟨h1, h2⟩
          exact ⟨h1, by simpa using h2⟩
      · intro hne
        unfold toUpdate
        refine List.mem_filterMap.mpr ⟨(k, f), hkf, ?_⟩
        dsimp only
        rw [hl]
        dsimp only
        rw [if_neg (by
          intro he
          exact hne (List.isEmpty_iff.mp he))]
      · intro hempty d hmem
        obtain ⟨k', f', old', hk'f', hl', hd, hdne⟩ :=
          toUpdate_mem _ _ recId d hmem
        have hem1 : (k, (recId, old)) ∈ buildExisting ep := lookupA_mem hl
        have hem2 : (k', (recId, old')) ∈ buildExisting ep := lookupA_mem hl'
        have heq : (k, ((recId : String), old)) = (k', (recId, old')) :=
          List.inj_on_of_nodup_map hrid hem1 hem2 rfl
        have hkk : k = k' := congrArg Prod.fst heq
        have holds : old = old' := by
          have := congrArg Prod.snd heq
          exact congrArg Prod.snd this
        have hff : f = f' :=
          mem_keys_unique (buildDesired_keys_nodup allowed rows) hkf (hkk ▸ hk'f')
        apply hdne
        rw [← hff, ← holds]
        exact hempty
    · intro hl
      unfold toCreate
      refine List.mem_map.mpr ⟨(k, f), ?_, rfl⟩
      refine List.mem_filter.mpr ⟨hkf, ?_⟩
      simp [hl]
  · intro k recId old hmem hnotk
    have hnk : k ∉ keepKeys (buildExisting ep) (buildDesired allowed rows) := by
      intro hin
      unfold keepKeys at hin
      rcases List.mem_map.mp hin with ⟨p, hp, he⟩
      exact hnotk (he ▸ List.mem_map_of_mem Prod.fst (List.mem_of_mem_filter hp))
    unfold toDeleteIds
    refine List.mem_map.mpr ⟨(k, (recId, old)), ?_, rfl⟩
    exact List.mem_filter.mpr ⟨hmem, by simpa using hnk⟩

/-- C1 witness: existing records `obj:A` (id recA) and `obj:B` (id recB);
the desired set only contains `obj:A` — so recB is scheduled for
deletion. -/
theorem incremental_reconcile_witness :
    "recB" ∈ toDeleteIds
      (buildExisting
        [("recA", [("Objektnummer", Value.vStr "A"), ("Titel", Value.vStr "Alt A")]),
         ("recB", [("Objektnummer", Value.vStr "B"), ("Titel", Value.vStr "Alt B")])])
      (buildDesired []
        [[("Objektnummer", Value.vStr "A"), ("Titel", Value.vStr "Neu A")]]) :=
  (incremental_reconcile_correct
      [("recA", [("Objektnummer", Value.vStr "A"), ("Titel", Value.vStr "Alt A")]),
       ("recB", [("Objektnummer", Value.vStr "B"), ("Titel", Value.vStr "Alt B")])]
      []
      [[("Objektnummer", Value.vStr "A"), ("Titel", Value.vStr "Neu A")]]
      (by decide)).2 "obj:B" "recB"
      [("Objektnummer", Value.vStr "B"), ("Titel", Value.vStr "Alt B")]
      (by decide) (by decide)

end Reinicke
